import Mathlib

/-!
Verification of the trucking-ocr-service upload-session manager, job
lifecycle engine, and rate limiter.

The JavaScript sources are shallowly embedded:

* `src/middleware/rateLimiter.js` — `MemoryStore.increment` and the
  admission decision of `createRateLimiter` (`RLEntry`, `msIncrement`,
  `admissionCheck`).
* `src/services/fileService.js` (reproduced in
  `src/development_documentation/anthropic_api_call_migration_backend.md`)
  — chunk bookkeeping and `combineChunks` (`Chunk`, `combineChunks`).
* `src/controllers/ocrController.js` — the `uploadChunk` request handler
  (`uploadChunk`, `runUpload`).
* `src/services/ocrService.js` — job records, `updateJobStatus`,
  `cancelJob`, `getErrorCode`, and the update sequence performed by
  `processImageJob` (`JobRecord`, `StatusUpdate`, `pipelineUpdates`).
* `src/services/classificationService.js` — `classifyReceipt`,
  `calculateConfidence`, `getFallbackClassification`.

Modelling conventions: the file system is modelled by content — a byte
stream is a `List ℕ`, and each upload's temp directory
(`temp/{uploadId}-chunk-{index}` files) is a path-to-bytes association
list in which `fs.rename` overwrites (`setAZ`) and `fs.unlink` removes
(`eraseZ`), so two chunk records with one index alias one file; a chunk
path is modelled by its distinguishing component, the index, and a
written artifact is the list of bytes the code would write; clock
readings (`Date.now()`) are explicit `ℤ` millisecond arguments; ISO
timestamp strings that the code stores but never branches on
(`createdAt`, `startedAt`, `completedAt`, `updatedAt`, `receivedAt`,
`lastChunkAt`, `processedAt`) are omitted from the records; JavaScript
`Map`s are association lists with `Map.set` insert-or-replace semantics
(`setA`); external collaborator outcomes (sharp, tesseract, the
regex-based field extractors) are universally quantified parameters of
the theorems, exactly as wide as the interface the code consumes.
-/

namespace TruckingOCR

/-- JavaScript `Map.set`: replace the (unique) binding in place when the
key is present, append it otherwise (JS `Map` preserves insertion order
and keeps keys unique). -/
def setA {α : Type} : List (String × α) → String → α → List (String × α)
  | [], k, v => [(k, v)]
  | kv :: tl, k, v => if kv.1 = k then (k, v) :: tl else kv :: setA tl k v

/-! ## Rate limiter — `src/middleware/rateLimiter.js` -/

/-- One entry of `MemoryStore`: the per-key `count` together with the
window reset time. The source keeps the reset time both inside the
client value and in a parallel `resetTime` map; the two are always
written together, so a single record models both. `none` models a key
with no entry (the `!existing || !resetTime` guard). -/
structure RLEntry where
  count : ℕ
  resetTime : ℤ
deriving DecidableEq, Repr

/-- `MemoryStore.increment(key, ttl)` at clock reading `now`: reset to
`count = 1, resetTime = now + ttl` when the entry is missing or the
window has expired (`now > resetTime`, strictly), otherwise bump the
count and keep the reset time (fixed-window semantics). -/
def msIncrement (e : Option RLEntry) (now ttl : ℤ) : RLEntry :=
  match e with
  | none => { count := 1, resetTime := now + ttl }
  | some e =>
    if now > e.resetTime then { count := 1, resetTime := now + ttl }
    else { count := e.count + 1, resetTime := e.resetTime }

/-- The admission decision of the `createRateLimiter` middleware:
`allowed`, the `remaining` budget, the wait `msBeforeNext` until the
window resets, and the `Retry-After` value in seconds set on a denial
(`Math.ceil(msBeforeNext / 1000)`). -/
structure AdmissionResult where
  allowed : Bool
  count : ℕ
  resetTime : ℤ
  remaining : ℤ
  msBeforeNext : ℤ
  retryAfterSec : ℤ
deriving DecidableEq, Repr

/-- One pass of the rate-limiting middleware for a single key: call
`store.increment(key, windowMs)` and deny exactly when the
post-increment count exceeds `max`. Returns the new store entry and the
decision. -/
def admissionCheck (e : Option RLEntry) (now windowMs maxCount : ℤ) : RLEntry × AdmissionResult :=
  let r := msIncrement e now windowMs
  let msBeforeNext := max 0 (r.resetTime - now)
  (r, { count := r.count, resetTime := r.resetTime,
        allowed := decide ((r.count : ℤ) ≤ maxCount),
        remaining := max 0 (maxCount - (r.count : ℤ)),
        msBeforeNext := msBeforeNext,
        retryAfterSec := (msBeforeNext + 999) / 1000 })

/-- Fold `msIncrement` over a sequence of clock readings, producing the
final store entry for the key. -/
def admissionFold (e : Option RLEntry) (ts : List ℤ) (windowMs : ℤ) : Option RLEntry :=
  ts.foldl (fun acc t => some (msIncrement acc t windowMs)) e

/-! ## Upload sessions — `src/services/fileService.js` and
`uploadChunk` in `src/controllers/ocrController.js` -/

inductive SessionStatus where
  | uploading
  | completed
  | failed
deriving DecidableEq, Repr

/-- One stored chunk record as `FileService.addChunk` receives it from
the controller: the client-supplied index and the temporary file path
`temp/{uploadId}-chunk-{chunkIndex}`. Within one upload that path is
determined by its only varying component, the chunk index, so it is
modelled by that integer — two records with the same index alias the
same file. The controller always sets `path` from the index; the model
keeps both fields because `combineChunks` reads through `path` while
sorting by `index`. (`size` feeds only the source's non-fatal size
warning and is omitted.) -/
structure Chunk where
  index : ℤ
  path : ℤ
deriving DecidableEq, Repr

/-- `Map.set`-style insert-or-replace on an integer-keyed association
list; used for the per-upload temp directory, where
`fs.rename(req.file.path, chunkPath)` overwrites an existing file at
`chunkPath`. -/
def setAZ {α : Type} : List (ℤ × α) → ℤ → α → List (ℤ × α)
  | [], k, v => [(k, v)]
  | kv :: tl, k, v => if kv.1 = k then (k, v) :: tl else kv :: setAZ tl k v

/-- `fs.unlink(path)`: remove a file from the modelled directory. -/
def eraseZ (d : List (ℤ × List ℕ)) (k : ℤ) : List (ℤ × List ℕ) :=
  d.filter (fun kv => kv.1 != k)

/-- An upload session record as created by `createUploadSession` in the
controller and mutated by `fileService`. `combinedPath` is modelled by
the content of the combined artifact (`some artifact` iff the path field
is set). -/
structure UploadSession where
  filename : String
  maxChunks : ℕ
  receivedChunks : ℕ
  status : SessionStatus
  combinedPath : Option (List ℕ)
deriving DecidableEq, Repr

/-- The two module-level maps of `fileService.js` (`uploadSessions` and
`sessionChunks`) plus the per-upload temp directory
(`temp/{uploadId}-chunk-*` files, keyed by uploadId and then by the
path's index component). -/
structure FileStore where
  sessions : List (String × UploadSession)
  chunks : List (String × List Chunk)
  disk : List (String × List (ℤ × List ℕ))
deriving DecidableEq, Repr

/-- The comparator `(a, b) => a.index - b.index` used by
`FileService.combineChunks`; chunks are sorted by ascending index. -/
def chunkLE (a b : Chunk) : Prop := a.index ≤ b.index

instance : DecidableRel chunkLE := fun a b => inferInstanceAs (Decidable (a.index ≤ b.index))

instance : IsTotal Chunk chunkLE := ⟨fun a b => Int.le_total a.index b.index⟩

instance : IsTrans Chunk chunkLE := ⟨fun _ _ _ hab hbc => le_trans hab hbc⟩

/-- Strict version of the chunk comparator, used to state that a sorted
duplicate-free chunk list is unique. -/
def chunkLT (a b : Chunk) : Prop := a.index < b.index

instance : IsAntisymm Chunk chunkLT :=
  ⟨fun _ _ h1 h2 => absurd (lt_trans h1 h2) (lt_irrefl _)⟩

/-- `chunks.sort((a, b) => a.index - b.index)`. -/
def sortChunks (cs : List Chunk) : List Chunk := List.insertionSort chunkLE cs

/-- The read-and-delete loop inside `combineChunks`: for each record in
sorted order, `fs.readFile(chunk.path)` — which throws `ENOENT` when the
file no longer exists, in particular when an earlier record aliasing the
same path already consumed it — append the bytes to the output, then
`fs.unlink` the chunk file (unlink failures are only logged; deleting a
present file always succeeds here). Returns the outcome together with
the directory as the loop left it: files consumed before a failing read
stay deleted. -/
def combineLoop : List Chunk → List (ℤ × List ℕ) → List ℕ →
    Except String (List ℕ) × List (ℤ × List ℕ)
  | [], d, acc => (.ok acc, d)
  | c :: rest, d, acc =>
    match d.lookup c.path with
    | none => (.error "ENOENT: no such file or directory", d)
    | some b => combineLoop rest (eraseZ d c.path) (acc ++ b)

/-- `FileService.combineChunks(uploadId)` over the modelled temp
directory: fail when no chunks were stored; sort the records by index;
fail with the missing-chunks error when the record count does not equal
the session's `maxChunks` (`session.maxChunks || chunks.length` — JS
`||` falls back to the record count when `maxChunks` is 0/absent);
otherwise read and delete each record's file in index order,
concatenating the bytes. Returns the result together with the directory
after the call. The post-write size comparison of the source only logs
a warning and never changes the result, so it is not modelled. -/
def combineChunks (maxChunks : ℕ) (cs : List Chunk) (d : List (ℤ × List ℕ)) :
    Except String (List ℕ) × List (ℤ × List ℕ) :=
  if cs.length = 0 then (.error "No chunks found to combine", d)
  else
    let sorted := sortChunks cs
    let expected := if maxChunks = 0 then cs.length else maxChunks
    if sorted.length ≠ expected then (.error "Missing chunks", d)
    else combineLoop sorted d []

inductive ChunkError where
  | sessionNotFound
  | invalidSessionStatus (s : SessionStatus)
  | combineError (msg : String)
deriving DecidableEq, Repr

/-- The response body of a successful `POST /api/ocr/chunk`. -/
structure ChunkResponse where
  receivedChunks : ℕ
  totalChunks : ℤ
  complete : Bool
deriving DecidableEq, Repr

/-- The `uploadChunk` request handler of `ocrController.js` for an
already-parsed request (uploadId present, `chunkIndex`/`totalChunks`
parsed to integers, chunk bytes received): look the session up (404 when
unknown); reject any status other than `uploading`; `fs.rename` the
received bytes onto `temp/{uploadId}-chunk-{chunkIndex}`, overwriting
any prior chunk of the same index; append the chunk record
(`FileService.addChunk` pushes — a duplicate index appends a second
record aliasing the same file, and no index-range check exists anywhere
on this path); then, when the stored-record count equals `totalChunks`,
combine synchronously and mark the session completed. A thrown combine
error propagates to the caller after the chunk was stored, leaving the
session `uploading` and the temp directory as the failed combine left
it. Returns the store after the call together with the handler's
outcome. -/
def uploadChunk (st : FileStore) (uploadId : String) (chunkIndex totalChunks : ℤ)
    (bytes : List ℕ) : FileStore × Except ChunkError ChunkResponse :=
  match st.sessions.lookup uploadId with
  | none => (st, .error .sessionNotFound)
  | some s =>
    if s.status ≠ .uploading then (st, .error (.invalidSessionStatus s.status))
    else
      let d := setAZ ((st.disk.lookup uploadId).getD []) chunkIndex bytes
      let cs := ((st.chunks.lookup uploadId).getD []) ++
        [{ index := chunkIndex, path := chunkIndex }]
      let s1 : UploadSession := { s with receivedChunks := cs.length }
      let st1 : FileStore :=
        { sessions := setA st.sessions uploadId s1, chunks := setA st.chunks uploadId cs,
          disk := setA st.disk uploadId d }
      if (cs.length : ℤ) = totalChunks then
        match combineChunks s1.maxChunks cs d with
        | (.error msg, d1) =>
          ({ st1 with disk := setA st1.disk uploadId d1 }, .error (.combineError msg))
        | (.ok artifact, d1) =>
          let s2 : UploadSession := { s1 with status := .completed, combinedPath := some artifact }
          let st2 : FileStore :=
            { st1 with sessions := setA st1.sessions uploadId s2, disk := setA st1.disk uploadId d1 }
          (st2, .ok { receivedChunks := cs.length, totalChunks := totalChunks, complete := true })
      else
        (st1, .ok { receivedChunks := cs.length, totalChunks := totalChunks, complete := false })

/-- Drive a whole upload: ingest the scripted `(chunkIndex, bytes)` calls
in order against one session, all with the same `totalChunks` value,
keeping only the store (the source client ignores intermediate
responses). -/
def runUpload (st : FileStore) (uploadId : String) (totalChunks : ℤ) :
    List (ℤ × List ℕ) → FileStore
  | [] => st
  | (i, b) :: rest =>
    runUpload (uploadChunk st uploadId i totalChunks b).1 uploadId totalChunks rest

/-- A single-session store at an intermediate state: the session with
`maxChunks = n` has the given status and artifact, the chunk map holds
the records `cs` (with `receivedChunks` kept in sync by `addChunk`), and
the upload's temp directory holds `d`. -/
def mkStore (uploadId : String) (n : ℕ) (cs : List Chunk) (d : List (ℤ × List ℕ))
    (stat : SessionStatus) (art : Option (List ℕ)) : FileStore :=
  { sessions := [(uploadId,
      { filename := "r.jpg", maxChunks := n, receivedChunks := cs.length,
        status := stat, combinedPath := art })],
    chunks := [(uploadId, cs)],
    disk := [(uploadId, d)] }

/-- A fresh store holding the single session `createUploadSession`
produces for `maxChunks = n` (status `uploading`, no records, no chunk
files, no combined artifact). -/
def freshStore (uploadId : String) (n : ℕ) : FileStore :=
  mkStore uploadId n [] [] .uploading none

/-! ## Classification — `src/services/classificationService.js` -/

/-- The record `parseReceiptWithPatterns` builds. Fields the source can
leave `null` are `Option`; `rtype` (`type` in the source) is always set
to one of `"Fuel" | "Maintenance" | "Other"`. `confidence` models the
extra `confidence` key spread into `classification.data`. -/
structure ClassificationData where
  date : Option String
  rtype : String
  amount : Option String
  vehicle : Option String
  vendorName : Option String
  location : Option String
  confidence : Option ℚ
deriving DecidableEq, Repr

/-- JS truthiness of an optional string field: `null` and `""` are falsy,
every other string is truthy. -/
def jsTruthyOptStr : Option String → Bool
  | none => false
  | some s => s ≠ ""

/-- The per-field test of `calculateConfidence`:
`classification[field] && field !== 'Unknown Vendor' && field !== 'UNKNOWN'`. -/
def fieldScores (v : Option String) : Bool :=
  jsTruthyOptStr v && v ≠ some "Unknown Vendor" && v ≠ some "UNKNOWN"

/-- Digit run to a natural number (helper for `parseDollarQ`). -/
def natOfDigits (cs : List Char) : ℕ :=
  cs.foldl (fun n c => n * 10 + (c.toNat - 48)) 0

/-- Models `parseFloat(amount.replace('$', ''))` on the `$d+(.dd)?`
strings `extractAmount` produces (`"$" + numAmount.toFixed(2)` or
`"$0.00"`); any other shape yields `none`, which — like `NaN` — fails
both comparisons of the bonus test. -/
def parseDollarQ (s : String) : Option ℚ :=
  match s.data with
  | '$' :: rest =>
    let ip := rest.takeWhile Char.isDigit
    let rp := rest.dropWhile Char.isDigit
    if ip.isEmpty then none
    else
      match rp with
      | [] => some (natOfDigits ip : ℚ)
      | '.' :: f1 :: f2 :: [] =>
        if f1.isDigit && f2.isDigit then
          some ((natOfDigits ip : ℚ) + (((f1.toNat - 48) * 10 + (f2.toNat - 48) : ℕ) : ℚ) / 100)
        else none
      | _ => none
  | _ => none

/-- `ClassificationService.calculateConfidence`: weighted count of the
successfully extracted fields (weights `date 0.2, amount 0.3,
vendorName 0.2, type 0.1, vehicle 0.1, location 0.1`), a `0.1` bonus for
an amount strictly between 5 and 1000, clamped into `[0.1, 0.95]` by
`Math.min(0.95, Math.max(0.1, score))`. -/
def calculateConfidence (c : ClassificationData) : ℚ :=
  let score : ℚ :=
    (if fieldScores c.date then (0.2 : ℚ) else 0) +
    (if fieldScores c.amount then (0.3 : ℚ) else 0) +
    (if fieldScores c.vendorName then (0.2 : ℚ) else 0) +
    (if fieldScores (some c.rtype) then (0.1 : ℚ) else 0) +
    (if fieldScores c.vehicle then (0.1 : ℚ) else 0) +
    (if fieldScores c.location then (0.1 : ℚ) else 0)
  let score : ℚ :=
    if jsTruthyOptStr c.amount && c.amount ≠ some "$0.00" then
      match c.amount.bind parseDollarQ with
      | some q => if 5 < q ∧ q < 1000 then score + 0.1 else score
      | none => score
    else score
  min 0.95 (max 0.1 score)

/-- `ClassificationService.getFallbackClassification`: the degraded
record returned when classification itself throws. `today` stands for
`new Date().toISOString().split('T')[0]`. -/
def getFallbackClassification (today : String) : ClassificationData :=
  { date := some today, rtype := "Other", amount := some "$0.00",
    vehicle := some "UNKNOWN", vendorName := some "Unknown Vendor",
    location := none, confidence := some 0.1 }

/-- The value `classifyReceipt` resolves with: a top-level confidence and
the `data` object. -/
structure ClassifyResult where
  confidence : ℚ
  data : ClassificationData
deriving DecidableEq, Repr

/-- `ClassificationService.classifyReceipt`: run the pattern parser
(whose outcome — a record, or a thrown error — is the `patternOutcome`
argument); on success attach `calculateConfidence`; on any thrown error
return the fallback with the fixed confidence `0.1`. The function never
rejects. -/
def classifyReceipt (patternOutcome : Except Unit ClassificationData) (today : String) :
    ClassifyResult :=
  match patternOutcome with
  | .ok cls =>
    let conf := calculateConfidence cls
    { confidence := conf, data := { cls with confidence := some conf } }
  | .error _ =>
    { confidence := 0.1, data := getFallbackClassification today }

/-! ## Job lifecycle — `src/services/ocrService.js` -/

inductive JobStatus where
  | pending
  | active
  | completed
  | failed
  | cancelled
deriving DecidableEq, Repr

/-- The `stage` values `processImageJob` writes (`queued` is the initial
value from `startProcessing`; the finalize step never writes a stage). -/
inductive Stage where
  | queued
  | optimizing
  | extracting
  | classifying
deriving DecidableEq, Repr

structure JobError where
  code : String
  message : String
deriving DecidableEq, Repr

/-- The `result` object assembled in step 4 of `processImageJob`
(`processedAt` timestamp omitted, see the header). -/
structure JobResult where
  extractedText : String
  confidence : ℚ
  classification : ClassificationData
  filename : String
deriving DecidableEq, Repr

/-- A `jobStatuses` record (timestamps omitted, see the header). -/
structure JobRecord where
  status : JobStatus
  stage : Stage
  progress : ℚ
  result : Option JobResult
  error : Option JobError
deriving DecidableEq, Repr

/-- The record `startProcessing` stores before queueing the job. -/
def initialJob : JobRecord :=
  { status := .pending, stage := .queued, progress := 0, result := none, error := none }

/-- One `updates` argument of `OCRService.updateJobStatus`: each field is
`some v` when the update object carries that key. `result`/`error` carry
an `Option` payload because the stored field is itself nullable. -/
structure StatusUpdate where
  status : Option JobStatus
  stage : Option Stage
  progress : Option ℚ
  result : Option (Option JobResult)
  error : Option (Option JobError)
deriving DecidableEq, Repr

/-- `OCRService.updateJobStatus`: an unconditional object spread
`{ ...currentStatus, ...updates }` — no field of the current record,
terminal status included, is protected from being overwritten. -/
def updateJobStatus (j : JobRecord) (u : StatusUpdate) : JobRecord :=
  { status := u.status.getD j.status,
    stage := u.stage.getD j.stage,
    progress := u.progress.getD j.progress,
    result := u.result.getD j.result,
    error := u.error.getD j.error }

/-- `OCRService.getErrorCode`, keyed off substrings of the error
message. -/
def jsIncludes (s t : String) : Bool :=
  (List.range (s.data.length + 1)).any fun i => (s.data.drop i).take t.data.length = t.data

def getErrorCode (msg : String) : String :=
  if jsIncludes msg "No text could be extracted" then "OCR_FAILED"
  else if jsIncludes msg "Invalid file" || jsIncludes msg "Cannot read" then "INVALID_FILE"
  else if jsIncludes msg "timeout" then "TIMEOUT"
  else "PROCESSING_ERROR"

/-- The status updates written by `processImageJob`, in order. -/
def activeU : StatusUpdate :=
  { status := some .active, stage := none, progress := none, result := none, error := none }

def stageU (st : Stage) (q : ℚ) : StatusUpdate :=
  { status := none, stage := some st, progress := some q, result := none, error := none }

def progressU (q : ℚ) : StatusUpdate :=
  { status := none, stage := none, progress := some q, result := none, error := none }

/-- The catch block of `processImageJob`: mark the job failed with a code
derived from the error message. It does not touch `progress`. -/
def failU (msg : String) : StatusUpdate :=
  { status := some .failed, stage := none, progress := none, result := none,
    error := some (some { code := getErrorCode msg, message := msg }) }

/-- The finalize update of `processImageJob`: `status = completed`,
`progress = 1.0`, and the result object with
`confidence: classification.confidence || 0.8` (JS `||` on numbers:
`0` falls back). -/
def jsOrQ (x d : ℚ) : ℚ := if x = 0 then d else x

def completeU (text : String) (cr : ClassifyResult) (filename : String) : StatusUpdate :=
  { status := some .completed, stage := none, progress := some 1,
    result := some (some
      { extractedText := text, confidence := jsOrQ cr.confidence 0.8,
        classification := cr.data, filename := filename }),
    error := none }

/-- The result object a run assembles when the classification stage
threw: trimmed text, the fallback classification, and the degraded
confidence `0.1` (which, being truthy, survives the `|| 0.8`). -/
def degradedResult (text today filename : String) : JobResult :=
  { extractedText := text, confidence := jsOrQ 0.1 0.8,
    classification := getFallbackClassification today, filename := filename }

/-- The update written by `cancelJob` on a cancellable job. -/
def cancelU : StatusUpdate :=
  { status := some .cancelled, stage := none, progress := none, result := none,
    error := some (some { code := "CANCELLED", message := "Job cancelled by user" }) }

/-- JavaScript `String.prototype.trim`: strip leading and trailing
whitespace (kernel-computable, unlike `String.trim`). -/
def jsTrim (s : String) : String :=
  { data := ((s.data.dropWhile Char.isWhitespace).reverse.dropWhile Char.isWhitespace).reverse }

/-- The fixed error thrown by `extractTextFromImage` on empty output,
with the code `getErrorCode` derives for it. -/
def extractionFailedError : JobError :=
  { code := "OCR_FAILED", message := "No text could be extracted from the image" }

/-- `OCRService.extractTextFromImage`, after the tesseract call resolved
with `tessText` (progress callbacks are handled by the pipeline): throw
when the text is empty or whitespace-only
(`!text || text.trim().length === 0`), otherwise return the trimmed
text. -/
def extractTextResult (tessOut : Except String String) : Except String String :=
  match tessOut with
  | .error e => .error e
  | .ok t =>
    if jsTrim t = "" then .error "No text could be extracted from the image" else .ok (jsTrim t)

/-- The sequence of `updateJobStatus` calls one run of
`processImageJob` performs, as a function of the collaborator outcomes:
`optOut` — the sharp optimization (`Except` error message);
`ps` — the tesseract progress callbacks, each mapped to
`0.3 + progress * 0.4`; `tessOut` — the recognize call's resolution;
`patternOutcome` — the classification parser's outcome (absorbed by
`classifyReceipt`, never failing the job). Any stage-1/2 failure runs
the catch block and stops. -/
def pipelineUpdates (optOut : Except String Unit) (ps : List ℚ)
    (tessOut : Except String String) (patternOutcome : Except Unit ClassificationData)
    (today filename : String) : List StatusUpdate :=
  [activeU, stageU .optimizing 0.1] ++
  match optOut with
  | .error e => [failU e]
  | .ok _ =>
    [progressU 0.2, stageU .extracting 0.3] ++
    ps.map (fun p => progressU (0.3 + p * 0.4)) ++
    match extractTextResult tessOut with
    | .error e => [failU e]
    | .ok text =>
      [progressU 0.7, stageU .classifying 0.75, progressU 0.9,
       completeU text (classifyReceipt patternOutcome today) filename]

/-- The job record after a full run of `processImageJob`. -/
def runPipeline (j : JobRecord) (optOut : Except String Unit) (ps : List ℚ)
    (tessOut : Except String String) (patternOutcome : Except Unit ClassificationData)
    (today filename : String) : JobRecord :=
  (pipelineUpdates optOut ps tessOut patternOutcome today filename).foldl updateJobStatus j

/-- The successive records a status poller can observe during one run:
the record after each `updateJobStatus` call. -/
def stepTrace (j : JobRecord) : List StatusUpdate → List JobRecord
  | [] => []
  | u :: rest =>
    let j1 := updateJobStatus j u
    j1 :: stepTrace j1 rest

/-- `OCRService.cancelJob` over the `jobStatuses` map: 404 when the job
is unknown; refuse (only) `completed` and `failed` jobs; otherwise write
the `cancelled` status with the fixed `CANCELLED` error. Returns the map
after the call and the updated record. -/
inductive CancelError where
  | notFound
  | invalidState (s : JobStatus)
deriving DecidableEq, Repr

def cancelJob (store : List (String × JobRecord)) (jobId : String) :
    Except CancelError (List (String × JobRecord) × JobRecord) :=
  match store.lookup jobId with
  | none => .error .notFound
  | some j =>
    if j.status = .completed ∨ j.status = .failed then .error (.invalidState j.status)
    else
      let j1 := updateJobStatus j cancelU
      .ok (setA store jobId j1, j1)

/-- The progress values a poller observes, given only the `progress`
components of the update objects: an update without a `progress` key
leaves the previous value in place. -/
def progScan (p : ℚ) : List (Option ℚ) → List ℚ
  | [] => []
  | o :: os =>
    let p1 := o.getD p
    p1 :: progScan p1 os

/-- A mid-pipeline job record on which `cancelJob` has just acted
(status `active`, extraction underway at progress 0.5, then the
`cancelled` update applied). -/
def cancelledJob : JobRecord :=
  updateJobStatus
    { status := .active, stage := .extracting, progress := 0.5, result := none, error := none }
    cancelU

/-- A job record that has run to successful completion (used to check
that cancelling a completed job is refused and leaves its result). -/
def sampleCompletedJob : JobRecord :=
  { status := .completed, stage := .classifying, progress := 1,
    result := some
      { extractedText := "TEST", confidence := 0.8,
        classification := getFallbackClassification "d", filename := "r.jpg" },
    error := none }

/-! ## Association-list facts -/

theorem lookup_setA_self {α : Type} (l : List (String × α)) (k : String) (v : α) :
    (setA l k v).lookup k = some v := by
  induction l with
  | nil => simp [setA, List.lookup]
  | cons hd tl ih =>
    by_cases h : hd.1 = k
    · simp [setA, h, List.lookup]
    · have hb : (k == hd.1) = false := beq_eq_false_iff_ne.mpr (Ne.symm h)
      simp [setA, h, List.lookup, hb, ih]

theorem lookup_setA_ne {α : Type} (l : List (String × α)) (k k' : String) (v : α)
    (h : k' ≠ k) : (setA l k v).lookup k' = l.lookup k' := by
  induction l with
  | nil =>
    have hb : (k' == k) = false := beq_eq_false_iff_ne.mpr h
    simp [setA, List.lookup, hb]
  | cons hd tl ih =>
    by_cases hh : hd.1 = k
    · subst hh
      have hb : (k' == hd.1) = false := beq_eq_false_iff_ne.mpr h
      simp [setA, List.lookup, hb]
    · by_cases hk' : k' = hd.1
      · have hb : (k' == hd.1) = true := beq_iff_eq.mpr hk'
        simp [setA, hh, List.lookup, hb]
      · have hb : (k' == hd.1) = false := beq_eq_false_iff_ne.mpr hk'
        simp [setA, hh, List.lookup, hb, ih]

theorem lookup_singleton_self {α : Type} (k : String) (v : α) :
    List.lookup k [(k, v)] = some v := by
  simp [List.lookup]

theorem setA_singleton_self {α : Type} (k : String) (v w : α) :
    setA [(k, v)] k w = [(k, w)] := by
  simp [setA]

/-! ## C2 — terminal-state mutability of `updateJobStatus` -/

/-- C2 counterexample: a job that `cancelJob` has just moved to the
terminal `cancelled` state, hit by the completion update that its
still-running background pipeline writes in step 4 of `processImageJob`,
does not stay `cancelled`: the record flips to `completed` and the
pipeline's output is stored, not discarded. -/
theorem cancelled_job_overwritten_by_completion :
    cancelledJob.status = .cancelled ∧
      (updateJobStatus cancelledJob
        (completeU "TEST" (classifyReceipt (.error ()) "2026-01-01") "r.jpg")).status
        = .completed ∧
      (updateJobStatus cancelledJob
        (completeU "TEST" (classifyReceipt (.error ()) "2026-01-01") "r.jpg")).result
        ≠ none := by
  refine ⟨rfl, rfl, ?_⟩
  simp [updateJobStatus, cancelledJob, completeU]

/-- C2 (amended): `updateJobStatus` is an unconditional merge, so no
status — terminal or not — is protected: the completion update of a
still-running pipeline overwrites a `cancelled` (or any terminal) job
with `completed` and stores the pipeline's result, and the re-activation
update written at the start of a queue-retried run overwrites a `failed`
job with `active`. -/
theorem terminal_status_not_immutable (j : JobRecord) (text today filename : String)
    (po : Except Unit ClassificationData)
    (_h : j.status = .cancelled ∨ j.status = .failed ∨ j.status = .completed) :
    (updateJobStatus j (completeU text (classifyReceipt po today) filename)).status
        = .completed ∧
      (updateJobStatus j (completeU text (classifyReceipt po today) filename)).result
        = some { extractedText := text,
                 confidence := jsOrQ (classifyReceipt po today).confidence 0.8,
                 classification := (classifyReceipt po today).data,
                 filename := filename } ∧
      (j.status = .failed → (updateJobStatus j activeU).status = .active) := by
  refine ⟨rfl, rfl, fun _ => rfl⟩

/-- Witness for C2 (amended) at the concrete cancelled job. -/
theorem terminal_status_not_immutable_witness :
    (updateJobStatus cancelledJob
        (completeU "TEST" (classifyReceipt (.ok (getFallbackClassification "d")) "d") "r.jpg")).status
      = .completed := by
  exact (terminal_status_not_immutable cancelledJob "TEST" "d" "r.jpg"
    (.ok (getFallbackClassification "d")) (Or.inl rfl)).1

/-! ## C3 — `cancelJob` -/

/-- C3 counterexample: `cancelJob` checks only for `completed` and
`failed`, so cancelling a job that is already in the terminal
`cancelled` state does not fail with `InvalidState` — it succeeds and
rewrites the `cancelled` status. -/
theorem cancelJob_cancelled_job_recancel_ok :
    cancelledJob.status = .cancelled ∧
      cancelJob [("a", cancelledJob)] "a" =
        .ok ([("a", cancelledJob)], cancelledJob) := by
  constructor
  · rfl
  · rfl

/-- C3 (amended): `cancelJob` fails with `NotFound` for an unknown job;
fails with `InvalidState` exactly for the `completed` and `failed`
states (leaving the store — and hence a completed job's stored result —
untouched, since no store is produced on the error path); for every
other state, `cancelled` included, it succeeds, writing status
`cancelled` with the fixed error code `CANCELLED` and preserving the
job's `result` field. -/
theorem cancelJob_spec (store : List (String × JobRecord)) (jobId : String) :
    (store.lookup jobId = none → cancelJob store jobId = .error .notFound) ∧
      (∀ j, store.lookup jobId = some j → (j.status = .completed ∨ j.status = .failed) →
        cancelJob store jobId = .error (.invalidState j.status)) ∧
      (∀ j, store.lookup jobId = some j → j.status ≠ .completed → j.status ≠ .failed →
        ∃ j1, cancelJob store jobId = .ok (setA store jobId j1, j1) ∧
          j1.status = .cancelled ∧
          j1.error = some { code := "CANCELLED", message := "Job cancelled by user" } ∧
          j1.result = j.result ∧ j1.progress = j.progress ∧
          (setA store jobId j1).lookup jobId = some j1) := by
  refine ⟨fun h => ?_, fun j hj hterm => ?_, fun j hj hc hf => ?_⟩
  · simp [cancelJob, h]
  · simp [cancelJob, hj, hterm]
  · refine ⟨updateJobStatus j cancelU, ?_, rfl, rfl, rfl, rfl, lookup_setA_self _ _ _⟩
    simp [cancelJob, hj, hc, hf]

/-- Witness for C3 (amended): the three branches at concrete stores — an
empty store (`NotFound`), a completed job (`InvalidState`, result kept),
and a pending job (cancelled with code `CANCELLED`). -/
theorem cancelJob_spec_witness :
    cancelJob [] "a" = .error .notFound ∧
      cancelJob [("a", sampleCompletedJob)] "a" = .error (.invalidState .completed) ∧
      ∃ j1, cancelJob [("a", initialJob)] "a" = .ok (setA [("a", initialJob)] "a" j1, j1) ∧
        j1.status = .cancelled := by
  refine ⟨(cancelJob_spec [] "a").1 rfl, ?_, ?_⟩
  · exact (cancelJob_spec [("a", sampleCompletedJob)] "a").2.1 sampleCompletedJob rfl
      (Or.inl rfl)
  · obtain ⟨j1, h1, h2, -⟩ := (cancelJob_spec [("a", initialJob)] "a").2.2 initialJob rfl
      (by decide) (by decide)
    exact ⟨j1, h1, h2⟩

/-! ## C9 — `uploadChunk` validation -/

/-- C9 counterexample: no index-range check exists on the chunk-ingest
path — a chunk with index 5 submitted against a 3-chunk session
(`totalChunks = 3`) is accepted with a success response and stored,
where the claim requires a `ChunkOutOfRange` failure and no storage. -/
theorem uploadChunk_out_of_range_accepted :
    (uploadChunk (freshStore "u" 3) "u" 5 3 [1]).2 =
        .ok { receivedChunks := 1, totalChunks := 3, complete := false } ∧
      (uploadChunk (freshStore "u" 3) "u" 5 3 [1]).1.chunks.lookup "u" =
        some [Chunk.mk 5 5] ∧
      (uploadChunk (freshStore "u" 3) "u" 5 3 [1]).1.disk.lookup "u" =
        some [(5, [1])] := by
  exact ⟨rfl, rfl, rfl⟩

/-- C9 (amended): `uploadChunk` fails with a 404 when the session is
unknown and with an invalid-state error when the session is not
`uploading`; but it performs no range validation on the chunk index —
for an `uploading` session, every index, negative or `≥ totalChunks`
included, is accepted: its file is written and its chunk record is
appended to the session's chunk list. -/
theorem uploadChunk_validation_spec (st : FileStore) (u : String) (i tot : ℤ)
    (b : List ℕ) :
    (st.sessions.lookup u = none → uploadChunk st u i tot b = (st, .error .sessionNotFound)) ∧
      (∀ s, st.sessions.lookup u = some s → s.status ≠ .uploading →
        uploadChunk st u i tot b = (st, .error (.invalidSessionStatus s.status))) ∧
      (∀ s, st.sessions.lookup u = some s → s.status = .uploading →
        (uploadChunk st u i tot b).1.chunks.lookup u =
          some (((st.chunks.lookup u).getD []) ++ [Chunk.mk i i])) := by
  refine ⟨fun h => ?_, fun s hs hstat => ?_, fun s hs hstat => ?_⟩
  · simp [uploadChunk, h]
  · simp [uploadChunk, hs, hstat]
  · simp only [uploadChunk, hs, hstat]
    simp only [ne_eq, not_true_eq_false, if_false, ite_not]
    split
    · split
      · exact lookup_setA_self _ _ _
      · exact lookup_setA_self _ _ _
    · exact lookup_setA_self _ _ _

/-- Witness for C9 (amended): the three branches at concrete stores. -/
theorem uploadChunk_validation_spec_witness :
    uploadChunk (freshStore "u" 3) "v" 0 3 [1] =
        (freshStore "u" 3, .error .sessionNotFound) ∧
      uploadChunk (mkStore "u" 3 [] [] .completed none) "u" 0 3 [1] =
        (mkStore "u" 3 [] [] .completed none, .error (.invalidSessionStatus .completed)) ∧
      (uploadChunk (freshStore "u" 3) "u" (-1) 3 [2]).1.chunks.lookup "u" =
        some [Chunk.mk (-1) (-1)] := by
  refine ⟨(uploadChunk_validation_spec (freshStore "u" 3) "v" 0 3 [1]).1 (by decide), ?_, ?_⟩
  · exact (uploadChunk_validation_spec (mkStore "u" 3 [] [] .completed none) "u" 0 3 [1]).2.1
      { filename := "r.jpg", maxChunks := 3, receivedChunks := 0,
        status := .completed, combinedPath := none }
      (by decide) (by decide)
  · exact (uploadChunk_validation_spec (freshStore "u" 3) "u" (-1) 3 [2]).2.2
      { filename := "r.jpg", maxChunks := 3, receivedChunks := 0,
        status := .uploading, combinedPath := none }
      (by decide) (by decide)

/-! ## C7 — rate limiter -/

/-- While the window is open (every call time at most the stored reset
time), `MemoryStore.increment` only bumps the count and never moves the
reset time. -/
theorem admissionFold_within (ts : List ℤ) (c : ℕ) (r w : ℤ) (h : ∀ t ∈ ts, t ≤ r) :
    admissionFold (some { count := c, resetTime := r }) ts w =
      some { count := c + ts.length, resetTime := r } := by
  induction ts generalizing c with
  | nil => simp [admissionFold]
  | cons t ts ih =>
    have ht : ¬ t > r := not_lt.mpr (h t (List.mem_cons_self t ts))
    have : msIncrement (some { count := c, resetTime := r }) t w =
        { count := c + 1, resetTime := r } := by
      simp [msIncrement, ht]
    simp only [admissionFold, List.foldl_cons] at *
    rw [this, ih (c + 1) (fun t' ht' => h t' (List.mem_cons_of_mem t ht'))]
    norm_num
    omega

/-- C7: the admission gate. (a) For every call, the request is denied
exactly when the post-increment count exceeds `maxCount`, and the
decision carries the exact wait `max 0 (resetTime - now)` until the
window resets. (b) Within an open window the counter only increments,
and an expired window resets to `count = 1, resetTime = now + windowMs`
before the comparison. (c) With `maxCount = 10, windowMs = 60000`: after
ten calls for one key inside one window, the 11th call inside the same
window is denied with `resetAt` strictly greater than `now` (when `now`
is strictly before the window edge) and wait `resetAt - now`; and the
first call of a fresh window after expiry is allowed with count 1. -/
theorem rateLimiter_admission_spec (e : Option RLEntry) (now w m : ℤ) (c : ℕ) (r : ℤ)
    (t1 t11 : ℤ) (ts : List ℤ) (hlen : ts.length = 9)
    (hwin : ∀ t ∈ ts, t ≤ t1 + 60000) (hwin11 : t11 ≤ t1 + 60000) :
    ((admissionCheck e now w m).2.allowed = false ↔ ((admissionCheck e now w m).1.count : ℤ) > m) ∧
      (admissionCheck e now w m).2.msBeforeNext = max 0 ((admissionCheck e now w m).1.resetTime - now) ∧
      (now ≤ r → admissionCheck (some { count := c, resetTime := r }) now w m =
        ({ count := c + 1, resetTime := r },
          { count := c + 1, resetTime := r,
            allowed := decide (((c : ℤ) + 1) ≤ m),
            remaining := max 0 (m - ((c : ℤ) + 1)),
            msBeforeNext := max 0 (r - now),
            retryAfterSec := (max 0 (r - now) + 999) / 1000 })) ∧
      (now > r → admissionCheck (some { count := c, resetTime := r }) now w m =
        ({ count := 1, resetTime := now + w },
          { count := 1, resetTime := now + w,
            allowed := decide ((1 : ℤ) ≤ m),
            remaining := max 0 (m - 1),
            msBeforeNext := max 0 (now + w - now),
            retryAfterSec := (max 0 (now + w - now) + 999) / 1000 })) ∧
      ((admissionCheck (admissionFold none (t1 :: ts) 60000) t11 60000 10).2.allowed = false ∧
        (admissionCheck (admissionFold none (t1 :: ts) 60000) t11 60000 10).2.count = 11 ∧
        (admissionCheck (admissionFold none (t1 :: ts) 60000) t11 60000 10).2.resetTime = t1 + 60000 ∧
        (t11 < t1 + 60000 →
          (admissionCheck (admissionFold none (t1 :: ts) 60000) t11 60000 10).2.resetTime > t11 ∧
          (admissionCheck (admissionFold none (t1 :: ts) 60000) t11 60000 10).2.msBeforeNext =
            t1 + 60000 - t11)) ∧
      (now > r → (admissionCheck (some { count := c, resetTime := r }) now 60000 10).2.allowed = true ∧
        (admissionCheck (some { count := c, resetTime := r }) now 60000 10).2.count = 1) := by
  have hfold : admissionFold none (t1 :: ts) 60000 =
      some { count := 10, resetTime := t1 + 60000 } := by
    simp only [admissionFold, List.foldl_cons]
    have h1 : msIncrement none t1 60000 = { count := 1, resetTime := t1 + 60000 } := rfl
    rw [h1]
    have := admissionFold_within ts 1 (t1 + 60000) 60000 hwin
    rw [hlen] at this
    simpa [admissionFold] using this
  have h11 : msIncrement (some { count := 10, resetTime := t1 + 60000 })
      t11 60000 = { count := 11, resetTime := t1 + 60000 } := by
    simp [msIncrement, not_lt.mpr hwin11]
  refine ⟨?_, rfl, fun hle => ?_, fun hgt => ?_, ⟨?_, ?_, ?_, fun hstrict => ⟨?_, ?_⟩⟩,
    fun hgt => ⟨?_, ?_⟩⟩
  · simp only [admissionCheck, decide_eq_false_iff_not, not_le, gt_iff_lt]
  · simp [admissionCheck, msIncrement, not_lt.mpr hle]
  · simp [admissionCheck, msIncrement, hgt]
  · rw [hfold]
    simp [admissionCheck, h11]
  · rw [hfold]
    simp [admissionCheck, h11]
  · rw [hfold]
    simp [admissionCheck, h11]
  · rw [hfold]
    simp [admissionCheck, h11]
    omega
  · rw [hfold]
    simp [admissionCheck, h11]
    omega
  · simp [admissionCheck, msIncrement, hgt]
  · simp [admissionCheck, msIncrement, hgt]

/-- Witness for C7 at concrete times: eleven calls at milliseconds
`0, 1, …, 9` and `30000` (all within the 60000 ms window opened at 0)
with the 11th denied, and a call at `70000` after expiry allowed. -/
theorem rateLimiter_admission_spec_witness :
    (admissionCheck (admissionFold none [0, 1, 2, 3, 4, 5, 6, 7, 8, 9] 60000) 30000 60000 10).2.allowed
        = false ∧
      (admissionCheck (admissionFold none [0, 1, 2, 3, 4, 5, 6, 7, 8, 9] 60000) 30000 60000 10).2.resetTime
        > 30000 ∧
      (admissionCheck (some { count := 11, resetTime := 60000 }) 70000 60000 10).2.allowed = true := by
  have h := rateLimiter_admission_spec none 70000 60000 10 11 60000 0 30000
    [1, 2, 3, 4, 5, 6, 7, 8, 9] (by decide) (by decide) (by decide)
  exact ⟨h.2.2.2.2.1.1, (h.2.2.2.2.1.2.2.2 (by decide)).1, (h.2.2.2.2.2 (by decide)).1⟩

/-! ## Pipeline bookkeeping lemmas -/

/-- Folding the progress-only callback updates over a job record only
moves its `progress` field. -/
theorem foldl_map_progressU (f : ℚ → ℚ) (qs : List ℚ) (j : JobRecord) :
    (qs.map (fun p => progressU (f p))).foldl updateJobStatus j =
      { j with progress := qs.foldl (fun _ q => f q) j.progress } := by
  induction qs generalizing j with
  | nil => rfl
  | cons q qs ih => exact ih { j with progress := f q }

/-! ## C5 — empty recognition output -/

/-- C5: a run whose recognition collaborator resolves with empty or
whitespace-only text (`tessText.trim = ""`) always ends `failed` —
never `completed` — with no result and the fixed extraction-failure
error (`OCR_FAILED`, the code realizing the spec's `ExtractionFailed`),
whatever the callbacks and classification would have been. -/
theorem empty_extraction_fails_job (ps : List ℚ) (tessText : String)
    (po : Except Unit ClassificationData) (today filename : String)
    (h : jsTrim tessText = "") :
    (runPipeline initialJob (.ok ()) ps (.ok tessText) po today filename).status = .failed ∧
      (runPipeline initialJob (.ok ()) ps (.ok tessText) po today filename).status
        ≠ .completed ∧
      (runPipeline initialJob (.ok ()) ps (.ok tessText) po today filename).result = none ∧
      (runPipeline initialJob (.ok ()) ps (.ok tessText) po today filename).error =
        some (some extractionFailedError) := by
  have hext : extractTextResult (.ok tessText) =
      .error "No text could be extracted from the image" := by
    simp [extractTextResult, h]
  have hcode : getErrorCode "No text could be extracted from the image" = "OCR_FAILED" := by
    rfl
  simp only [runPipeline, pipelineUpdates, hext, List.cons_append, List.nil_append,
    List.foldl_append, List.foldl_cons, List.foldl_nil, foldl_map_progressU]
  refine ⟨rfl, by simp [updateJobStatus, failU], rfl, ?_⟩
  simp [updateJobStatus, failU, hcode, extractionFailedError]

/-- Witness for C5: whitespace-only recognition output at a concrete
run. -/
theorem empty_extraction_fails_job_witness :
    (runPipeline initialJob (.ok ()) [0.5] (.ok "   ") (.error ()) "d" "r.jpg").status
        = .failed ∧
      (runPipeline initialJob (.ok ()) [0.5] (.ok "   ") (.error ()) "d" "r.jpg").result
        = none := by
  have h := empty_extraction_fails_job [0.5] "   " (.error ()) "d" "r.jpg" (by decide)
  exact ⟨h.1, h.2.2.1⟩

/-! ## C6 — classification failure degrades, never fails -/

/-- C6: when the classification stage throws, the job still runs to
`completed`: the result carries the non-null fallback classification and
the fixed degraded confidence `0.1 ≤ 0.2` (the job-level confidence is
`classification.confidence || 0.8`, and `0.1` is truthy). -/
theorem classification_failure_still_completes (ps : List ℚ) (tessText : String)
    (today filename : String) (h : jsTrim tessText ≠ "") :
    (runPipeline initialJob (.ok ()) ps (.ok tessText) (.error ()) today filename).status
        = .completed ∧
      (runPipeline initialJob (.ok ()) ps (.ok tessText) (.error ()) today filename).result
        = some (degradedResult (jsTrim tessText) today filename) ∧
      (degradedResult (jsTrim tessText) today filename).confidence = 0.1 ∧
      (degradedResult (jsTrim tessText) today filename).confidence ≤ 0.2 := by
  have hext : extractTextResult (.ok tessText) = .ok (jsTrim tessText) := by
    simp [extractTextResult, h]
  have hor : jsOrQ (0.1 : ℚ) 0.8 = 0.1 := by norm_num [jsOrQ]
  simp only [runPipeline, pipelineUpdates, hext, List.cons_append, List.nil_append,
    List.foldl_append, List.foldl_cons, List.foldl_nil, foldl_map_progressU]
  refine ⟨rfl, rfl, ?_, ?_⟩
  · simpa [degradedResult] using hor
  · simp only [degradedResult, hor]
    norm_num

/-- Witness for C6 at a concrete run. -/
theorem classification_failure_still_completes_witness :
    (runPipeline initialJob (.ok ()) [] (.ok "TEST") (.error ()) "d" "r.jpg").status
        = .completed := by
  exact (classification_failure_still_completes [] "TEST" "d" "r.jpg" (by decide)).1

/-! ## C10 — confidence bounds -/

/-- The clamp `Math.min(0.95, Math.max(0.1, score))` keeps every
computed confidence inside `[0.1, 0.95]`, whatever the score. -/
theorem calcConf_bounds (c : ClassificationData) :
    (0.1 : ℚ) ≤ calculateConfidence c ∧ calculateConfidence c ≤ 0.95 := by
  constructor
  · exact le_min (by norm_num) (le_max_left _ _)
  · exact min_le_left _ _

/-- C10: every classification confidence lands in `[0.1, 0.95]` — the
pattern path clamps, the error fallback returns exactly `0.1` — and
therefore the result object of every run that ends `completed` carries a
confidence in `[0.1, 0.95]`, in particular strictly between 0 and 1
(the `|| 0.8` default never replaces it, since `0.1 > 0`). -/
theorem confidence_bounds :
    (∀ c : ClassificationData,
        (0.1 : ℚ) ≤ calculateConfidence c ∧ calculateConfidence c ≤ 0.95) ∧
      (∀ today, (classifyReceipt (.error ()) today).confidence = 0.1) ∧
      ∀ (optOut : Except String Unit) (ps : List ℚ) (tessOut : Except String String)
        (po : Except Unit ClassificationData) (today filename : String),
        (runPipeline initialJob optOut ps tessOut po today filename).status = .completed →
        ∃ r, (runPipeline initialJob optOut ps tessOut po today filename).result = some r ∧
          (0.1 : ℚ) ≤ r.confidence ∧ r.confidence ≤ 0.95 ∧
          0 < r.confidence ∧ r.confidence < 1 := by
  refine ⟨calcConf_bounds, fun _ => rfl, ?_⟩
  intro optOut ps tessOut po today filename
  rcases optOut with e | u
  · intro hst
    exact JobStatus.noConfusion hst
  · rcases hres : extractTextResult tessOut with e | text
    · intro hst
      simp only [runPipeline, pipelineUpdates, hres, List.cons_append, List.nil_append,
        List.foldl_append, List.foldl_cons, List.foldl_nil, foldl_map_progressU] at hst
      exact JobStatus.noConfusion hst
    · intro hst
      simp only [runPipeline, pipelineUpdates, hres, List.cons_append, List.nil_append,
        List.foldl_append, List.foldl_cons, List.foldl_nil, foldl_map_progressU]
      rcases po with u' | cls
      · refine ⟨degradedResult text today filename, rfl, ?_⟩
        have hor : jsOrQ (0.1 : ℚ) 0.8 = 0.1 := by norm_num [jsOrQ]
        simp only [degradedResult, hor]
        norm_num
      · have hb := calcConf_bounds cls
        have hpos : (0 : ℚ) < calculateConfidence cls := by linarith
        have hor : jsOrQ (calculateConfidence cls) 0.8 = calculateConfidence cls := by
          simp [jsOrQ, hpos.ne.symm]
        refine ⟨_, rfl, ?_, ?_, ?_, ?_⟩
        · simpa [classifyReceipt, hor] using hb.1
        · simpa [classifyReceipt, hor] using hb.2
        · simpa [classifyReceipt, hor] using hpos
        · simp only [classifyReceipt, hor]
          linarith

/-- Witness for C10: the clamp at the fallback record, and a concrete
completing run with its confidence strictly inside `(0, 1)`. -/
theorem confidence_bounds_witness :
    ((0.1 : ℚ) ≤ calculateConfidence (getFallbackClassification "d") ∧
        calculateConfidence (getFallbackClassification "d") ≤ 0.95) ∧
      ∃ r, (runPipeline initialJob (.ok ()) [] (.ok "TEST") (.error ()) "d" "r.jpg").result
          = some r ∧ (0.1 : ℚ) ≤ r.confidence ∧ r.confidence ≤ 0.95 ∧
          0 < r.confidence ∧ r.confidence < 1 := by
  refine ⟨confidence_bounds.1 (getFallbackClassification "d"), ?_⟩
  exact confidence_bounds.2.2 (.ok ()) [] (.ok "TEST") (.error ()) "d" "r.jpg" (by decide)

/-! ## C4 — progress monotonicity and bounds -/

theorem mem_of_mem_head' {α : Type} {l : List α} {x : α} (h : x ∈ l.head?) : x ∈ l := by
  cases l with
  | nil => cases h
  | cons a t =>
    rw [List.head?_cons, Option.mem_def, Option.some_inj] at h
    exact h ▸ List.mem_cons_self a t

theorem mem_of_mem_getLast' {α : Type} {l : List α} {x : α} (h : x ∈ l.getLast?) : x ∈ l := by
  obtain ⟨hne, rfl⟩ := List.mem_getLast?_eq_getLast h
  exact List.getLast_mem hne

/-- The polled progress values are exactly the `progScan` of the update
objects' `progress` components. -/
theorem map_progress_stepTrace (us : List StatusUpdate) (j : JobRecord) :
    (stepTrace j us).map JobRecord.progress =
      progScan j.progress (us.map StatusUpdate.progress) := by
  induction us generalizing j with
  | nil => rfl
  | cons u us ih =>
    simp only [stepTrace, List.map_cons, progScan]
    exact congrArg (List.cons _) (ih (updateJobStatus j u))

/-- An update without a `progress` key repeats the previous value, so
the scan is a non-decreasing chain as soon as the written values are. -/
theorem chain'_progScan (os : List (Option ℚ)) (p : ℚ)
    (h : (p :: os.reduceOption).Chain' (· ≤ ·)) :
    (p :: progScan p os).Chain' (· ≤ ·) := by
  induction os generalizing p with
  | nil => simp [progScan]
  | cons o os ih =>
    cases o with
    | none =>
      rw [List.reduceOption_cons_of_none] at h
      simp only [progScan, Option.getD_none]
      exact List.chain'_cons.mpr ⟨le_refl p, ih p h⟩
    | some q =>
      rw [List.reduceOption_cons_of_some, List.chain'_cons] at h
      simp only [progScan, Option.getD_some]
      exact List.chain'_cons.mpr ⟨h.1, ih q h.2⟩

/-- Bounds propagate through the scan: if the start value and all
written values are within `[lo, hi]`, so is every observed value. -/
theorem mem_progScan_bounds (os : List (Option ℚ)) (p lo hi : ℚ)
    (hp : lo ≤ p ∧ p ≤ hi) (hos : ∀ q, some q ∈ os → lo ≤ q ∧ q ≤ hi) :
    ∀ x ∈ progScan p os, lo ≤ x ∧ x ≤ hi := by
  induction os generalizing p with
  | nil => simp [progScan]
  | cons o os ih =>
    intro x hx
    cases o with
    | none =>
      simp only [progScan, Option.getD_none, List.mem_cons] at hx
      rcases hx with rfl | hx
      · exact hp
      · exact ih p hp (fun q hq => hos q (List.mem_cons_of_mem _ hq)) x hx
    | some q =>
      have hq : lo ≤ q ∧ q ≤ hi := hos q (List.mem_cons_self _ _)
      simp only [progScan, Option.getD_some, List.mem_cons] at hx
      rcases hx with rfl | hx
      · exact hq
      · exact ih q hq (fun q' hq' => hos q' (List.mem_cons_of_mem _ hq')) x hx

theorem reduceOption_map_some {α : Type} (l : List α) (f : α → α) :
    (l.map (fun x => some (f x))).reduceOption = l.map f := by
  induction l with
  | nil => rfl
  | cons a l ih => simp [List.reduceOption_cons_of_some, ih]

/-- Projecting `progress` out of the mapped callback updates yields the
mapped callback values. -/
theorem map_progress_map_progressU (f : ℚ → ℚ) (l : List ℚ) :
    (l.map (fun p => progressU (f p))).map StatusUpdate.progress =
      l.map (fun p => some (f p)) := by
  induction l with
  | nil => rfl
  | cons a l ih => simp [progressU, ih]

/-- C4: for any run of `processImageJob` whose recognition collaborator
reports progress callbacks within `[0, 1]` and non-decreasingly (the
interface contract of the incremental tesseract callbacks), every
progress value a poller can observe — from the initial `progress 0`
record written at submission through to the terminal record — lies in
`[0, 1]`, and the observed sequence is monotonically non-decreasing;
this holds on every path (optimization failure, extraction failure,
classification fallback, and success). -/
theorem job_progress_monotone_bounded (optOut : Except String Unit) (ps : List ℚ)
    (tessOut : Except String String) (po : Except Unit ClassificationData)
    (today filename : String)
    (hmem : ∀ p ∈ ps, (0 : ℚ) ≤ p ∧ p ≤ 1) (hchain : ps.Chain' (· ≤ ·)) :
    (initialJob.progress :: (stepTrace initialJob
        (pipelineUpdates optOut ps tessOut po today filename)).map JobRecord.progress).Chain'
        (· ≤ ·) ∧
      ∀ q ∈ initialJob.progress :: (stepTrace initialJob
          (pipelineUpdates optOut ps tessOut po today filename)).map JobRecord.progress,
        (0 : ℚ) ≤ q ∧ q ≤ 1 := by
  rw [map_progress_stepTrace]
  have hqs_chain : (ps.map (fun p => (0.3 : ℚ) + p * 0.4)).Chain' (· ≤ ·) :=
    List.chain'_map_of_chain' _ (fun a b hab => by linarith) hchain
  have hqs_mem : ∀ x ∈ ps.map (fun p => (0.3 : ℚ) + p * 0.4), (0.3 : ℚ) ≤ x ∧ x ≤ 0.7 := by
    intro x hx
    obtain ⟨p, hp, rfl⟩ := List.mem_map.mp hx
    obtain ⟨h0, h1⟩ := hmem p hp
    have hge : (0 : ℚ) ≤ p * 0.4 := mul_nonneg h0 (by norm_num)
    have hle : p * 0.4 ≤ 1 * 0.4 := mul_le_mul_of_nonneg_right h1 (by norm_num)
    constructor <;> linarith
  have hkey : ∀ os : List (Option ℚ),
      ((0 : ℚ) :: os.reduceOption).Chain' (· ≤ ·) →
      (∀ q : ℚ, q ∈ os.reduceOption → (0 : ℚ) ≤ q ∧ q ≤ 1) →
      ((initialJob.progress :: progScan initialJob.progress os).Chain' (· ≤ ·) ∧
        ∀ q ∈ initialJob.progress :: progScan initialJob.progress os,
          (0 : ℚ) ≤ q ∧ q ≤ 1) := by
    intro os hA hB
    refine ⟨chain'_progScan os 0 hA, ?_⟩
    intro q hq
    rcases List.mem_cons.mp hq with rfl | hq
    · exact ⟨le_refl _, by norm_num [initialJob]⟩
    · refine mem_progScan_bounds os 0 0 1 ⟨le_refl _, by norm_num⟩ ?_ q hq
      intro q' hq'
      exact hB q' (List.reduceOption_mem_iff.mpr hq')
  rcases optOut with e | u
  · have hred : ((pipelineUpdates (.error e) ps tessOut po today filename).map
        StatusUpdate.progress).reduceOption = [(0.1 : ℚ)] := by
      simp [pipelineUpdates, activeU, stageU, failU, List.reduceOption_cons_of_none,
        List.reduceOption_cons_of_some]
    refine hkey _ ?_ ?_
    · rw [hred]
      simp [List.chain'_cons]
      norm_num
    · intro q hq
      rw [hred] at hq
      simp only [List.mem_singleton] at hq
      subst hq
      norm_num
  · rcases hres : extractTextResult tessOut with etxt | text
    · have hred : ((pipelineUpdates (.ok u) ps tessOut po today filename).map
          StatusUpdate.progress).reduceOption =
          [(0.1 : ℚ), 0.2, 0.3] ++ ps.map (fun p => (0.3 : ℚ) + p * 0.4) := by
        simp only [pipelineUpdates, hres, List.cons_append, List.nil_append, List.map_cons,
          List.map_append, List.map_nil, map_progress_map_progressU]
        simp [activeU, stageU, progressU, failU,
          List.reduceOption_cons_of_none, List.reduceOption_cons_of_some,
          List.reduceOption_append, reduceOption_map_some]
      refine hkey _ ?_ ?_
      · rw [hred]
        show ([(0 : ℚ), 0.1, 0.2, 0.3] ++ ps.map fun p => (0.3 : ℚ) + p * 0.4).Chain' (· ≤ ·)
        refine List.Chain'.append ?_ hqs_chain ?_
        · simp [List.chain'_cons]
          norm_num
        · intro x hx y hy
          have hx3 : (0.3 : ℚ) = x := by simpa using hx
          have h3 := (hqs_mem y (mem_of_mem_head' hy)).1
          rw [← hx3]
          linarith
      · intro q hq
        rw [hred] at hq
        simp only [List.mem_append, List.mem_cons, List.not_mem_nil, or_false] at hq
        rcases hq with (rfl | rfl | rfl) | hq
        · norm_num
        · norm_num
        · norm_num
        · have := hqs_mem q hq
          constructor <;> linarith [this.1, this.2]
    · have hred : ((pipelineUpdates (.ok u) ps tessOut po today filename).map
          StatusUpdate.progress).reduceOption =
          ([(0.1 : ℚ), 0.2, 0.3] ++ ps.map (fun p => (0.3 : ℚ) + p * 0.4)) ++
            [(0.7 : ℚ), 0.75, 0.9, 1] := by
        simp only [pipelineUpdates, hres, List.cons_append, List.nil_append, List.map_cons,
          List.map_append, List.map_nil, map_progress_map_progressU]
        simp [activeU, stageU, progressU, completeU,
          List.reduceOption_cons_of_none, List.reduceOption_cons_of_some,
          List.reduceOption_append, reduceOption_map_some]
      refine hkey _ ?_ ?_
      · rw [hred]
        show (([(0 : ℚ), 0.1, 0.2, 0.3] ++ ps.map fun p => (0.3 : ℚ) + p * 0.4) ++
          [(0.7 : ℚ), 0.75, 0.9, 1]).Chain' (· ≤ ·)
        refine List.Chain'.append (List.Chain'.append ?_ hqs_chain ?_) ?_ ?_
        · simp [List.chain'_cons]
          norm_num
        · intro x hx y hy
          have hx3 : (0.3 : ℚ) = x := by simpa using hx
          have h3 := (hqs_mem y (mem_of_mem_head' hy)).1
          rw [← hx3]
          linarith
        · simp [List.chain'_cons]
          norm_num
        · intro x hx y hy
          have hy7 : (0.7 : ℚ) = y := by simpa using hy
          have hx' := mem_of_mem_getLast' hx
          rw [← hy7]
          rcases List.mem_append.mp hx' with hx'' | hx''
          · simp only [List.mem_cons, List.not_mem_nil, or_false] at hx''
            rcases hx'' with rfl | rfl | rfl | rfl <;> norm_num
          · exact (hqs_mem x hx'').2
      · intro q hq
        rw [hred] at hq
        simp only [List.mem_append, List.mem_cons, List.not_mem_nil, or_false] at hq
        rcases hq with ((rfl | rfl | rfl) | hq) | (rfl | rfl | rfl | rfl)
        · norm_num
        · norm_num
        · norm_num
        · have := hqs_mem q hq
          constructor <;> linarith [this.1, this.2]
        · norm_num
        · norm_num
        · norm_num
        · norm_num

/-- Witness for C4 at a concrete run with two monotone callbacks. -/
theorem job_progress_monotone_bounded_witness :
    (initialJob.progress :: (stepTrace initialJob
        (pipelineUpdates (.ok ()) [0.2, 0.5] (.ok "TEST") (.error ()) "d"
          "r.jpg")).map JobRecord.progress).Chain' (· ≤ ·) := by
  exact (job_progress_monotone_bounded (.ok ()) [0.2, 0.5] (.ok "TEST") (.error ()) "d"
    "r.jpg" (by norm_num) (by norm_num [List.chain'_cons])).1

/-! ## Temp-directory facts -/

theorem lookup_setAZ_self {α : Type} (l : List (ℤ × α)) (k : ℤ) (v : α) :
    (setAZ l k v).lookup k = some v := by
  induction l with
  | nil => simp [setAZ, List.lookup]
  | cons hd tl ih =>
    by_cases h : hd.1 = k
    · simp [setAZ, h, List.lookup]
    · have hb : (k == hd.1) = false := beq_eq_false_iff_ne.mpr (Ne.symm h)
      simp [setAZ, h, List.lookup, hb, ih]

theorem lookup_setAZ_ne {α : Type} (l : List (ℤ × α)) (k k' : ℤ) (v : α)
    (h : k' ≠ k) : (setAZ l k v).lookup k' = l.lookup k' := by
  induction l with
  | nil =>
    have hb : (k' == k) = false := beq_eq_false_iff_ne.mpr h
    simp [setAZ, List.lookup, hb]
  | cons hd tl ih =>
    by_cases hh : hd.1 = k
    · subst hh
      have hb : (k' == hd.1) = false := beq_eq_false_iff_ne.mpr h
      simp [setAZ, List.lookup, hb]
    · by_cases hk' : k' = hd.1
      · have hb : (k' == hd.1) = true := beq_iff_eq.mpr hk'
        simp [setAZ, hh, List.lookup, hb]
      · have hb : (k' == hd.1) = false := beq_eq_false_iff_ne.mpr hk'
        simp [setAZ, hh, List.lookup, hb, ih]

theorem lookup_eraseZ_self (d : List (ℤ × List ℕ)) (k : ℤ) :
    (eraseZ d k).lookup k = none := by
  induction d with
  | nil => rfl
  | cons kv tl ih =>
    by_cases h : kv.1 = k
    · simpa [eraseZ, List.filter_cons, h] using ih
    · have hb : (k == kv.1) = false := beq_eq_false_iff_ne.mpr (Ne.symm h)
      have hbne : (kv.1 != k) = true := by simp [bne, beq_eq_false_iff_ne.mpr h]
      simpa [eraseZ, List.filter_cons, hbne, List.lookup, hb] using ih

theorem lookup_eraseZ_ne (d : List (ℤ × List ℕ)) (k k' : ℤ) (h : k' ≠ k) :
    (eraseZ d k).lookup k' = d.lookup k' := by
  induction d with
  | nil => rfl
  | cons kv tl ih =>
    by_cases hkv : kv.1 = k
    · have hb : (k' == kv.1) = false := beq_eq_false_iff_ne.mpr (hkv ▸ h)
      have hbne : (kv.1 != k) = false := by simp [bne, beq_iff_eq.mpr hkv]
      simpa [eraseZ, List.filter_cons, hbne, List.lookup, hb] using ih
    · have hbne : (kv.1 != k) = true := by simp [bne, beq_eq_false_iff_ne.mpr hkv]
      by_cases hk' : k' = kv.1
      · have hb : (k' == kv.1) = true := beq_iff_eq.mpr hk'
        simp [eraseZ, List.filter_cons, hbne, List.lookup, hb]
      · have hb : (k' == kv.1) = false := beq_eq_false_iff_ne.mpr hk'
        simpa [eraseZ, List.filter_cons, hbne, List.lookup, hb] using ih

/-! ## Reassembly loop -/

/-- When the records reference pairwise-distinct files that are all
present, the read-and-delete loop succeeds and returns the records'
byte streams concatenated in record order. -/
theorem combineLoop_ok (cs : List Chunk) :
    ∀ (d : List (ℤ × List ℕ)) (acc : List ℕ),
    (cs.map Chunk.path).Nodup →
    (∀ c ∈ cs, (d.lookup c.path).isSome) →
    (combineLoop cs d acc).1 =
      .ok (acc ++ (cs.map (fun c => (d.lookup c.path).getD [])).flatten) := by
  induction cs with
  | nil =>
    intro d acc _ _
    simp [combineLoop]
  | cons c rest ih =>
    intro d acc hnd hpresent
    obtain ⟨b, hb⟩ := Option.isSome_iff_exists.mp (hpresent c (List.mem_cons_self c rest))
    rw [List.map_cons, List.nodup_cons] at hnd
    have hne : ∀ c' ∈ rest, c'.path ≠ c.path := by
      intro c' hc' heq
      exact hnd.1 (heq ▸ List.mem_map_of_mem Chunk.path hc')
    have hpres' : ∀ c' ∈ rest, ((eraseZ d c.path).lookup c'.path).isSome := by
      intro c' hc'
      rw [lookup_eraseZ_ne d c.path c'.path (hne c' hc')]
      exact hpresent c' (List.mem_cons_of_mem c hc')
    have hmaps : rest.map (fun c' => (((eraseZ d c.path).lookup c'.path).getD [])) =
        rest.map (fun c' => ((d.lookup c'.path).getD [])) :=
      List.map_congr_left (fun c' hc' => by rw [lookup_eraseZ_ne d c.path c'.path (hne c' hc')])
    simp only [combineLoop, hb]
    rw [ih (eraseZ d c.path) (acc ++ b) hnd.2 hpres', hmaps]
    simp [hb, List.append_assoc]

/-- A record whose file is missing — in particular the second of two
records aliasing one path, the first having consumed and deleted it —
makes the loop throw. -/
theorem combineLoop_error (cs : List Chunk) :
    ∀ (d : List (ℤ × List ℕ)) (acc : List ℕ),
    (¬ (cs.map Chunk.path).Nodup ∨ ∃ c ∈ cs, d.lookup c.path = none) →
    ∃ msg d1, combineLoop cs d acc = (.error msg, d1) := by
  induction cs with
  | nil =>
    intro d acc h
    rcases h with h | ⟨c, hc, -⟩
    · simp at h
    · exact absurd hc (List.not_mem_nil c)
  | cons c rest ih =>
    intro d acc h
    cases hb : d.lookup c.path with
    | none =>
      exact ⟨"ENOENT: no such file or directory", d, by simp [combineLoop, hb]⟩
    | some b =>
      have hrec : ¬ (rest.map Chunk.path).Nodup ∨
          ∃ c' ∈ rest, (eraseZ d c.path).lookup c'.path = none := by
        rcases h with hdup | ⟨c', hc', hnone⟩
        · by_cases hmem : c.path ∈ rest.map Chunk.path
          · obtain ⟨c', hc', hpeq⟩ := List.mem_map.mp hmem
            exact Or.inr ⟨c', hc', by rw [hpeq, lookup_eraseZ_self]⟩
          · refine Or.inl fun hnd => hdup ?_
            simpa using List.nodup_cons.mpr ⟨hmem, hnd⟩
        · rcases List.mem_cons.mp hc' with rfl | hc''
          · rw [hnone] at hb
            cases hb
          · refine Or.inr ⟨c', hc'', ?_⟩
            by_cases hpq : c'.path = c.path
            · rw [hpq, lookup_eraseZ_self]
            · rw [lookup_eraseZ_ne d c.path c'.path hpq, hnone]
      obtain ⟨msg, d1, hrec'⟩ := ih (eraseZ d c.path) (acc ++ b) hrec
      exact ⟨msg, d1, by simp [combineLoop, hb, hrec']⟩

/-- `combineChunks` succeeds when the records pass the count check,
reference pairwise-distinct files, and every file is present; the
artifact is the concatenation of the files' bytes in ascending index
order. -/
theorem combineChunks_ok_aux (n : ℕ) (cs : List Chunk) (d : List (ℤ × List ℕ))
    (hne : cs.length ≠ 0) (hexp : cs.length = (if n = 0 then cs.length else n))
    (hnd : (cs.map Chunk.path).Nodup) (hpresent : ∀ c ∈ cs, (d.lookup c.path).isSome) :
    (combineChunks n cs d).1 =
      .ok ((sortChunks cs).map (fun c => ((d.lookup c.path).getD []))).flatten := by
  have hperm := List.perm_insertionSort chunkLE cs
  have hnd' : ((sortChunks cs).map Chunk.path).Nodup := ((hperm.map Chunk.path).nodup_iff).mpr hnd
  have hpres' : ∀ c ∈ sortChunks cs, (d.lookup c.path).isSome :=
    fun c hc => hpresent c (hperm.mem_iff.mp hc)
  have hlen : (sortChunks cs).length = cs.length := hperm.length_eq
  simp only [combineChunks, hne, if_false]
  rw [if_neg (not_ne_iff.mpr (by rw [hlen]; exact hexp))]
  rw [combineLoop_ok (sortChunks cs) d [] hnd' hpres']
  simp

/-- `combineChunks` throws when two records alias one file: the count
check passes, but the loop consumes the file at the first record and
hits `ENOENT` at the second. -/
theorem combineChunks_error_of_dup (n : ℕ) (cs : List Chunk) (d : List (ℤ × List ℕ))
    (hexp : cs.length = (if n = 0 then cs.length else n))
    (hdup : ¬ (cs.map Chunk.path).Nodup) :
    ∃ msg d1, combineChunks n cs d = (.error msg, d1) := by
  have hne : cs.length ≠ 0 := by
    intro h0
    rw [List.length_eq_zero] at h0
    subst h0
    exact hdup (by simp)
  have hperm := List.perm_insertionSort chunkLE cs
  have hlen : (sortChunks cs).length = cs.length := hperm.length_eq
  have hdup' : ¬ ((sortChunks cs).map Chunk.path).Nodup :=
    fun hh => hdup (((hperm.map Chunk.path).nodup_iff).mp hh)
  obtain ⟨msg, d1, hl⟩ := combineLoop_error (sortChunks cs) d [] (Or.inl hdup')
  refine ⟨msg, d1, ?_⟩
  simp only [combineChunks, hne, if_false]
  rw [if_neg (not_ne_iff.mpr (by rw [hlen]; exact hexp)), hl]

/-! ## C8 — order-independent, index-exact reassembly -/

/-- A chunk list sorted by `≤` on indices with pairwise-distinct indices
is sorted by `<` on indices. -/
theorem sorted_lt_of_sorted_le_nodup (l : List Chunk) (hs : l.Sorted chunkLE)
    (hnd : (l.map Chunk.index).Nodup) : l.Sorted chunkLT := by
  have hne : l.Pairwise (fun a b : Chunk => a.index ≠ b.index) := List.pairwise_map.mp hnd
  exact (hs.and hne).imp fun h => lt_of_le_of_ne h.1 h.2

/-- C8: reassembly is order-independent in arrival and order-exact in
output. For chunk-record lists with pairwise-distinct indices that are
permutations of each other (the same chunk set arriving in two orders),
`combineChunks` produces identical results on the same temp directory;
`sortChunks` both permutes the stored list and sorts it by index; and
whenever the count check passes with all (distinct) files present, the
artifact is the concatenation of the chunk byte streams in ascending
index order. -/
theorem combineChunks_order_independent (n : ℕ) (cs1 cs2 : List Chunk)
    (d : List (ℤ × List ℕ)) (hperm : cs1.Perm cs2)
    (hnodup : (cs1.map Chunk.index).Nodup) :
    combineChunks n cs1 d = combineChunks n cs2 d ∧
      (sortChunks cs1).Perm cs1 ∧ (sortChunks cs1).Sorted chunkLE ∧
      ((cs1.map Chunk.path).Nodup → (∀ c ∈ cs1, (d.lookup c.path).isSome) →
        cs1.length ≠ 0 → cs1.length = (if n = 0 then cs1.length else n) →
        (combineChunks n cs1 d).1 =
          .ok ((sortChunks cs1).map (fun c => ((d.lookup c.path).getD []))).flatten) := by
  have hp1 : (sortChunks cs1).Perm cs1 := List.perm_insertionSort chunkLE cs1
  have hp2 : (sortChunks cs2).Perm cs2 := List.perm_insertionSort chunkLE cs2
  have hs1 : (sortChunks cs1).Sorted chunkLE := List.sorted_insertionSort chunkLE cs1
  have hs2 : (sortChunks cs2).Sorted chunkLE := List.sorted_insertionSort chunkLE cs2
  have hnd1 : ((sortChunks cs1).map Chunk.index).Nodup :=
    ((hp1.map Chunk.index).nodup_iff).mpr hnodup
  have hnd2 : ((sortChunks cs2).map Chunk.index).Nodup :=
    ((hp2.map Chunk.index).nodup_iff).mpr (((hperm.map Chunk.index).nodup_iff).mp hnodup)
  have heq : sortChunks cs1 = sortChunks cs2 :=
    List.eq_of_perm_of_sorted (hp1.trans (hperm.trans hp2.symm))
      (sorted_lt_of_sorted_le_nodup _ hs1 hnd1) (sorted_lt_of_sorted_le_nodup _ hs2 hnd2)
  refine ⟨?_, hp1, hs1, ?_⟩
  · simp only [combineChunks, heq, hperm.length_eq]
  · intro hndp hpresent hne hexp
    exact combineChunks_ok_aux n cs1 d hne hexp hndp hpresent

/-- Witness for C8: ingesting indices `[2, 0, 1]` produces byte-identical
output to ingesting `[0, 1, 2]` from the same chunk files. -/
theorem combineChunks_order_independent_witness :
    combineChunks 3 [Chunk.mk 2 2, Chunk.mk 0 0, Chunk.mk 1 1]
        [(0, [10]), (1, [11]), (2, [22])] =
      combineChunks 3 [Chunk.mk 0 0, Chunk.mk 1 1, Chunk.mk 2 2]
        [(0, [10]), (1, [11]), (2, [22])] ∧
      (combineChunks 3 [Chunk.mk 2 2, Chunk.mk 0 0, Chunk.mk 1 1]
        [(0, [10]), (1, [11]), (2, [22])]).1 = .ok [10, 11, 22] := by
  refine ⟨(combineChunks_order_independent 3
    [Chunk.mk 2 2, Chunk.mk 0 0, Chunk.mk 1 1]
    [Chunk.mk 0 0, Chunk.mk 1 1, Chunk.mk 2 2]
    [(0, [10]), (1, [11]), (2, [22])] (by decide) (by decide)).1, rfl⟩

/-! ## C1 — session completion characterization -/

/-- A chunk-ingest call against a session that is not `uploading`
(in particular a completed one) errors out and leaves the store
untouched. -/
theorem uploadChunk_not_uploading (st : FileStore) (u : String) (i tot : ℤ) (b : List ℕ)
    (s : UploadSession) (hlk : st.sessions.lookup u = some s)
    (hst : s.status ≠ .uploading) :
    uploadChunk st u i tot b = (st, .error (.invalidSessionStatus s.status)) := by
  simp [uploadChunk, hlk, hst]

/-- Once the session is completed, the rest of the script is a no-op. -/
theorem runUpload_completed (script : List (ℤ × List ℕ)) (st : FileStore) (u : String)
    (tot : ℤ) (s : UploadSession) (hlk : st.sessions.lookup u = some s)
    (hst : s.status = .completed) :
    runUpload st u tot script = st := by
  induction script with
  | nil => rfl
  | cons ib rest ih =>
    obtain ⟨i, b⟩ := ib
    have hne : s.status ≠ .uploading := by
      rw [hst]
      exact fun h => SessionStatus.noConfusion h
    simp [runUpload, uploadChunk_not_uploading st u i tot b s hlk hne, ih]

/-- One ingest against the single-session store while it is `uploading`,
short of the count trigger: the file is written (overwriting any prior
same-index file), the record appended, and the session keeps
uploading. -/
theorem uploadChunk_step_nocomplete (u : String) (n : ℕ) (cs : List Chunk)
    (d : List (ℤ × List ℕ)) (i : ℤ) (b : List ℕ)
    (h : (cs ++ [Chunk.mk i i]).length ≠ n) :
    uploadChunk (mkStore u n cs d .uploading none) u i (n : ℤ) b =
      (mkStore u n (cs ++ [Chunk.mk i i]) (setAZ d i b) .uploading none,
       .ok { receivedChunks := (cs ++ [Chunk.mk i i]).length, totalChunks := (n : ℤ),
             complete := false }) := by
  have h' : cs.length + 1 ≠ n := by simpa using h
  have hcast : ((cs.length : ℤ) + 1) ≠ (n : ℤ) := by exact_mod_cast h'
  simp [uploadChunk, mkStore, lookup_singleton_self, setA_singleton_self, h', hcast]

/-- The count-triggering ingest when reassembly succeeds: the session is
marked completed with the artifact, and the temp directory is as the
combine left it (all chunk files consumed). -/
theorem uploadChunk_step_combine_ok (u : String) (n : ℕ) (cs : List Chunk)
    (d : List (ℤ × List ℕ)) (i : ℤ) (b : List ℕ) (artifact : List ℕ)
    (d1 : List (ℤ × List ℕ)) (hlen : (cs ++ [Chunk.mk i i]).length = n)
    (hc : combineChunks n (cs ++ [Chunk.mk i i]) (setAZ d i b) = (.ok artifact, d1)) :
    uploadChunk (mkStore u n cs d .uploading none) u i (n : ℤ) b =
      (mkStore u n (cs ++ [Chunk.mk i i]) d1 .completed (some artifact),
       .ok { receivedChunks := (cs ++ [Chunk.mk i i]).length, totalChunks := (n : ℤ),
             complete := true }) := by
  have h' : cs.length + 1 = n := by simpa using hlen
  have hcast : ((cs.length : ℤ) + 1) = (n : ℤ) := by exact_mod_cast h'
  simp [uploadChunk, mkStore, lookup_singleton_self, setA_singleton_self, h', hcast, hc]

/-- The count-triggering ingest when reassembly throws: the error
propagates to the caller, the session stays `uploading` with no
artifact, the records stay stored, and the temp directory is as the
failed combine left it (files consumed before the failure stay
deleted). -/
theorem uploadChunk_step_combine_error (u : String) (n : ℕ) (cs : List Chunk)
    (d : List (ℤ × List ℕ)) (i : ℤ) (b : List ℕ) (msg : String)
    (d1 : List (ℤ × List ℕ)) (hlen : (cs ++ [Chunk.mk i i]).length = n)
    (hc : combineChunks n (cs ++ [Chunk.mk i i]) (setAZ d i b) = (.error msg, d1)) :
    uploadChunk (mkStore u n cs d .uploading none) u i (n : ℤ) b =
      (mkStore u n (cs ++ [Chunk.mk i i]) d1 .uploading none,
       .error (.combineError msg)) := by
  have h' : cs.length + 1 = n := by simpa using hlen
  have hcast : ((cs.length : ℤ) + 1) = (n : ℤ) := by exact_mod_cast h'
  simp [uploadChunk, mkStore, lookup_singleton_self, setA_singleton_self, h', hcast, hc]

/-- After a failed reassembly the record count already equals
`totalChunks`, every further ingest pushes it strictly past the trigger,
so the count check never fires again: the session is stuck `uploading`
forever. -/
theorem runUpload_stuck (u : String) (n : ℕ) (script : List (ℤ × List ℕ)) :
    ∀ (cs : List Chunk) (d : List (ℤ × List ℕ)), n ≤ cs.length →
    ∃ s, (runUpload (mkStore u n cs d .uploading none) u (n : ℤ) script).sessions.lookup u
        = some s ∧ s.status = .uploading ∧ s.combinedPath = none := by
  induction script with
  | nil =>
    intro cs d hge
    exact ⟨_, lookup_singleton_self u _, rfl, rfl⟩
  | cons ib rest ih =>
    intro cs d hge
    obtain ⟨i, b⟩ := ib
    have hne : (cs ++ [Chunk.mk i i]).length ≠ n := by
      simp
      omega
    simp only [runUpload]
    rw [uploadChunk_step_nocomplete u n cs d i b hne]
    exact ih (cs ++ [Chunk.mk i i]) (setAZ d i b) (by simp; omega)

/-- Driving a partially-filled `uploading` session with any script: the
session completes exactly when the appended-record count reaches
`maxChunks` — duplicates counted separately — **and** the indices
ingested up to that point are pairwise distinct; a duplicated index
passes the count check but makes reassembly throw `ENOENT` on the
aliased, already-consumed chunk file, leaving the session `uploading`
for good. -/
theorem runUpload_characterization (u : String) (n : ℕ) (hn : 0 < n)
    (script : List (ℤ × List ℕ)) :
    ∀ (cs : List Chunk) (d : List (ℤ × List ℕ)),
      cs.length < n →
      (∀ c ∈ cs, c.path = c.index) →
      (∀ c ∈ cs, ((d.lookup c.index).isSome : Prop)) →
      ∃ s, (runUpload (mkStore u n cs d .uploading none) u (n : ℤ) script).sessions.lookup u
          = some s ∧
        (s.status = .completed ↔
          (n ≤ cs.length + script.length ∧
            (cs.map Chunk.index ++ (script.map Prod.fst).take (n - cs.length)).Nodup)) ∧
        (s.combinedPath.isSome ↔
          (n ≤ cs.length + script.length ∧
            (cs.map Chunk.index ++ (script.map Prod.fst).take (n - cs.length)).Nodup)) ∧
        s.status ≠ .failed := by
  induction script with
  | nil =>
    intro cs d hlt hpath hpres
    refine ⟨_, lookup_singleton_self u _, ?_, ?_, ?_⟩
    · exact iff_of_false (fun hh => SessionStatus.noConfusion hh)
        (fun hh => absurd hh.1 (by simp; omega))
    · exact iff_of_false (by simp) (fun hh => absurd hh.1 (by simp; omega))
    · exact fun hh => SessionStatus.noConfusion hh
  | cons ib rest ih =>
    intro cs d hlt hpath hpres
    obtain ⟨i, b⟩ := ib
    have hpath' : ∀ c ∈ cs ++ [Chunk.mk i i], c.path = c.index := by
      intro c hc
      rcases List.mem_append.mp hc with hc | hc
      · exact hpath c hc
      · simp at hc
        subst hc
        rfl
    have hpres' : ∀ c ∈ cs ++ [Chunk.mk i i], ((setAZ d i b).lookup c.index).isSome := by
      intro c hc
      rcases List.mem_append.mp hc with hc | hc
      · by_cases hci : c.index = i
        · rw [hci, lookup_setAZ_self]
          rfl
        · rw [lookup_setAZ_ne d i c.index b hci]
          exact hpres c hc
      · simp at hc
        subst hc
        rw [lookup_setAZ_self]
        rfl
    have hmpe : ((cs ++ [Chunk.mk i i]).map Chunk.path) =
        ((cs ++ [Chunk.mk i i]).map Chunk.index) := List.map_congr_left hpath'
    simp only [runUpload]
    by_cases hl : (cs ++ [Chunk.mk i i]).length = n
    · have hl' : cs.length + 1 = n := by simpa using hl
      have hk1 : n - cs.length = 1 := by omega
      have hexp : (cs ++ [Chunk.mk i i]).length =
          (if n = 0 then (cs ++ [Chunk.mk i i]).length else n) := by
        rw [if_neg (by omega)]
        exact hl
      by_cases hnd : ((cs ++ [Chunk.mk i i]).map Chunk.index).Nodup
      · have hndp : ((cs ++ [Chunk.mk i i]).map Chunk.path).Nodup := by
          rw [hmpe]
          exact hnd
        have hpresP : ∀ c ∈ cs ++ [Chunk.mk i i], (((setAZ d i b).lookup c.path).isSome : Prop) := by
          intro c hc
          rw [hpath' c hc]
          exact hpres' c hc
        have hok := combineChunks_ok_aux n (cs ++ [Chunk.mk i i]) (setAZ d i b)
          (by simp) hexp hndp hpresP
        have hpair := (Prod.mk.eta
          (p := combineChunks n (cs ++ [Chunk.mk i i]) (setAZ d i b))).symm
        rw [hok] at hpair
        rw [uploadChunk_step_combine_ok u n cs d i b _ _ hl hpair]
        rw [runUpload_completed rest _ u (n : ℤ) _ (lookup_singleton_self u _) rfl]
        refine ⟨_, lookup_singleton_self u _, ?_, ?_, ?_⟩
        · refine iff_of_true rfl ⟨by simp; omega, ?_⟩
          rw [hk1]
          simpa using hnd
        · refine iff_of_true (by simp) ⟨by simp; omega, ?_⟩
          rw [hk1]
          simpa using hnd
        · exact fun hh => SessionStatus.noConfusion hh
      · have hndp : ¬ ((cs ++ [Chunk.mk i i]).map Chunk.path).Nodup := by
          rw [hmpe]
          exact hnd
        obtain ⟨msg, d1, hcc⟩ :=
          combineChunks_error_of_dup n (cs ++ [Chunk.mk i i]) (setAZ d i b) hexp hndp
        rw [uploadChunk_step_combine_error u n cs d i b msg d1 hl hcc]
        obtain ⟨s, hs, hst, hcp⟩ := runUpload_stuck u n rest (cs ++ [Chunk.mk i i]) d1
          (by simp; omega)
        refine ⟨s, hs, ?_, ?_, ?_⟩
        · refine iff_of_false (by rw [hst]; exact fun hh => SessionStatus.noConfusion hh) ?_
          rintro ⟨-, hndL⟩
          apply hnd
          rw [hk1] at hndL
          simpa using hndL
        · refine iff_of_false (by rw [hcp]; simp) ?_
          rintro ⟨-, hndL⟩
          apply hnd
          rw [hk1] at hndL
          simpa using hndL
        · rw [hst]
          exact fun hh => SessionStatus.noConfusion hh
    · have hlt' : (cs ++ [Chunk.mk i i]).length < n := by
        simp at hl ⊢
        omega
      rw [uploadChunk_step_nocomplete u n cs d i b hl]
      obtain ⟨s, hs, h1, h2, h3⟩ := ih (cs ++ [Chunk.mk i i]) (setAZ d i b) hlt' hpath' hpres'
      have hkk : n - cs.length = (n - (cs.length + 1)) + 1 := by
        have : cs.length + 1 < n := by simpa using hlt'
        omega
      have hlist : (cs ++ [Chunk.mk i i]).map Chunk.index ++
          (rest.map Prod.fst).take (n - (cs ++ [Chunk.mk i i]).length) =
          cs.map Chunk.index ++ (((i, b) :: rest).map Prod.fst).take (n - cs.length) := by
        simp only [List.map_append, List.map_cons, List.map_nil, List.length_append,
          List.length_cons, List.length_nil]
        rw [show cs.length + (0 + 1) = cs.length + 1 from by omega, hkk,
          List.take_succ_cons, List.append_assoc, List.singleton_append]
      have hcond : (n ≤ (cs ++ [Chunk.mk i i]).length + rest.length ∧
            ((cs ++ [Chunk.mk i i]).map Chunk.index ++
              (rest.map Prod.fst).take (n - (cs ++ [Chunk.mk i i]).length)).Nodup) ↔
          (n ≤ cs.length + ((i, b) :: rest).length ∧
            (cs.map Chunk.index ++
              (((i, b) :: rest).map Prod.fst).take (n - cs.length)).Nodup) := by
        rw [hlist]
        constructor
        · rintro ⟨ha, hb2⟩
          refine ⟨?_, hb2⟩
          simp at ha ⊢
          omega
        · rintro ⟨ha, hb2⟩
          refine ⟨?_, hb2⟩
          simp at ha ⊢
          omega
      exact ⟨s, hs, h1.trans hcond, h2.trans hcond, h3⟩

/-- C1 (amended): for a session driven with `totalChunks = maxChunks =
expectedChunkCount > 0`, `status = completed` holds iff the number of
accepted ingest calls reaches `expectedChunkCount` — **counting a
re-ingested duplicate index as a new record** (`addChunk` appends, it
never replaces) — **and** the first `expectedChunkCount` ingested
indices are pairwise distinct; and the same condition characterizes the
artifact path being set. A duplicated index does not produce
`IncompleteUpload`: the record count satisfies the count check, but the
two records alias one chunk file (`fs.rename` overwrote it), reassembly
deletes that file when consuming the first record and throws `ENOENT` on
the second, and the session stays `uploading` — never `completed`,
never `failed`. -/
theorem uploadSession_completion_characterization (u : String) (n : ℕ) (hn : 0 < n)
    (script : List (ℤ × List ℕ)) :
    ∃ s, (runUpload (freshStore u n) u (n : ℤ) script).sessions.lookup u = some s ∧
      (s.status = .completed ↔
        (n ≤ script.length ∧ ((script.map Prod.fst).take n).Nodup)) ∧
      (s.combinedPath.isSome ↔
        (n ≤ script.length ∧ ((script.map Prod.fst).take n).Nodup)) ∧
      s.status ≠ .failed := by
  have h := runUpload_characterization u n hn script [] [] (by simpa using hn)
    (by simp) (by simp)
  simpa [freshStore] using h

/-- C1 counterexample: a 2-chunk session receiving `expectedChunkCount =
2` chunks with index `0` duplicated and index `1` missing does **not**
behave as the claim says. The count grew to 2 on the duplicate (refuting
last-write-wins), so the count check passes and the failure is not
`IncompleteUpload` (`"Missing chunks"`) but an `ENOENT` thrown while
re-reading the single chunk file both records alias — reassembly deleted
it after the first record — and the session stays `uploading` with no
artifact. -/
theorem uploadSession_duplicate_index_enoent :
    (uploadChunk (uploadChunk (freshStore "u" 2) "u" 0 2 [7]).1 "u" 0 2 [9]).2 =
        .error (.combineError "ENOENT: no such file or directory") ∧
      (runUpload (freshStore "u" 2) "u" 2 [(0, [7]), (0, [9])]).sessions.lookup "u" =
        some { filename := "r.jpg", maxChunks := 2, receivedChunks := 2,
               status := .uploading, combinedPath := none } := by
  exact ⟨rfl, rfl⟩

/-- Witness for C1 (amended): a 2-chunk session ingesting the distinct
indices 0 and 1 completes; by the same theorem the duplicate-index
script `[(0, _), (0, _)]` does not. -/
theorem uploadSession_completion_characterization_witness :
    (∃ s, (runUpload (freshStore "u" 2) "u" ((2 : ℕ) : ℤ)
        [(0, [7]), (1, [9])]).sessions.lookup "u" = some s ∧ s.status = .completed) ∧
      ∃ s, (runUpload (freshStore "u" 2) "u" ((2 : ℕ) : ℤ)
        [(0, [7]), (0, [9])]).sessions.lookup "u" = some s ∧ s.status ≠ .completed := by
  constructor
  · obtain ⟨s, hs, h1, -, -⟩ :=
      uploadSession_completion_characterization "u" 2 (by decide) [(0, [7]), (1, [9])]
    exact ⟨s, hs, h1.mpr (by decide)⟩
  · obtain ⟨s, hs, h1, -, -⟩ :=
      uploadSession_completion_characterization "u" 2 (by decide) [(0, [7]), (0, [9])]
    refine ⟨s, hs, fun hc => ?_⟩
    have := h1.mp hc
    exact absurd this.2 (by decide)

end TruckingOCR
